import Mathlib

/-!
Verification of the IPCow endpoint-expansion, listener-management and
calibration core against its specification.

The Rust sources are embedded shallowly: strings are `List Char`, machine
integers are `Nat` with explicit bounds/wrapping, fallible code returns
`Except`/`Option` (a Rust `panic!`/`expect` is an `Except.error` or `none`),
and the effects of the async runtime (bind/accept outcomes, file I/O,
wall-clock timestamps) are passed in explicitly as oracle parameters.
-/

set_option maxRecDepth 4000
set_option linter.unusedVariables false

namespace IPCow

/-! ### Character and string primitives (Rust `str` operations) -/

/-- Decimal digit test, as in Rust `char::is_ascii_digit`. -/
def isDigitChar (c : Char) : Bool :=
  '0' ≤ c && c ≤ '9'

/-- Numeric value of a decimal digit character. -/
def digitVal (c : Char) : Nat :=
  c.toNat - 48

/-- Decimal digit character for a value `< 10`. -/
def digitChar (n : Nat) : Char :=
  Char.ofNat (48 + n)

/-- Value of a digit string (most significant first), as accumulated by
Rust's integer `from_str` loop. -/
def digitsVal (s : List Char) : Nat :=
  s.foldl (fun acc c => acc * 10 + digitVal c) 0

/-- Uppercasing of one character as Rust `str::to_uppercase` acts on the
ASCII subset (the only characters the IP grammar can contain). -/
def upperChar (c : Char) : Char :=
  if 'a' ≤ c && c ≤ 'z' then Char.ofNat (c.toNat - 32) else c

/-- Rust `input.to_uppercase()` restricted to ASCII strings. -/
def upperList (s : List Char) : List Char :=
  s.map upperChar

/-- Rust `str::split(sep)`: splits at every occurrence of `sep`; an empty
string yields `[[]]`, `n` separators yield `n+1` (possibly empty) parts. -/
def splitChar (sep : Char) : List Char → List (List Char)
  | [] => [[]]
  | c :: cs =>
    if c = sep then [] :: splitChar sep cs
    else
      match splitChar sep cs with
      | [] => [[c]]
      | h :: t => (c :: h) :: t

/-- Whether `pat` occurs at the start of `s` (Rust `str::starts_with`). -/
def startsWithSeg (s pat : List Char) : Bool :=
  match pat, s with
  | [], _ => true
  | _ :: _, [] => false
  | p :: ps, c :: cs => p = c && startsWithSeg cs ps

/-- Whether `pat` occurs as a contiguous substring of `s`
(Rust `str::contains`). -/
def containsSeg (s pat : List Char) : Bool :=
  match s with
  | [] => pat.isEmpty
  | _ :: cs => startsWithSeg s pat || containsSeg cs pat

/-- Whether `s` ends with `pat` (Rust `str::ends_with`). -/
def endsWithSeg (s pat : List Char) : Bool :=
  startsWithSeg s.reverse pat.reverse

/-- Membership of the Unicode `White_Space` set, the set Rust
`char::is_whitespace` (and hence `str::trim`) uses. -/
def rustIsWhitespace (c : Char) : Bool :=
  let n := c.toNat
  (9 ≤ n && n ≤ 13) || n = 32 || n = 133 || n = 160 || n = 5760 ||
  (8192 ≤ n && n ≤ 8202) || n = 8232 || n = 8233 || n = 8239 ||
  n = 8287 || n = 12288

/-- Rust `str::trim`: drop leading and trailing whitespace. -/
def trimList (s : List Char) : List Char :=
  ((s.dropWhile rustIsWhitespace).reverse.dropWhile rustIsWhitespace).reverse

/-! ### Rust integer and IPv4-address parsing -/

/-- Rust `uN::from_str` for an unsigned type with maximum value `max`:
an optional leading `+`, then one or more decimal digits (leading zeros
allowed), value at most `max`, nothing else. -/
def rustParseUInt (max : Nat) (s : List Char) : Option Nat :=
  let t := match s with
    | '+' :: rest => rest
    | _ => s
  if t.isEmpty || !t.all isDigitChar then none
  else if digitsVal t ≤ max then some (digitsVal t) else none

/-- Rust `u8::from_str`. -/
def rustParseU8 (s : List Char) : Option Nat :=
  rustParseUInt 255 s

/-- Rust `u16::from_str`. -/
def rustParseU16 (s : List Char) : Option Nat :=
  rustParseUInt 65535 s

/-- One dotted-decimal group as accepted by Rust's `Ipv4Addr` parser:
one to three decimal digits, no sign, no leading zero, value at most 255. -/
def parseOctetStrict (s : List Char) : Option Nat :=
  match s with
  | [] => none
  | c :: cs =>
    if (c :: cs).all isDigitChar && (c :: cs).length ≤ 3 &&
        (cs.isEmpty || c ≠ '0') && digitsVal (c :: cs) ≤ 255 then
      some (digitsVal (c :: cs))
    else
      none

/-- The `u32` value of four octets, as `u32::from(Ipv4Addr)`. -/
def u32OfOctets (a b c d : Nat) : Nat :=
  ((a * 256 + b) * 256 + c) * 256 + d

/-- Rust `Ipv4Addr::from_str`, returning the address as its `u32` value:
exactly four strict dotted-decimal groups. -/
def rustParseIpv4 (s : List Char) : Option Nat :=
  match splitChar '.' s with
  | [g0, g1, g2, g3] =>
    match parseOctetStrict g0, parseOctetStrict g1,
          parseOctetStrict g2, parseOctetStrict g3 with
    | some a, some b, some c, some d => some (u32OfOctets a b c d)
    | _, _, _, _ => none
  | _ => none

/-- Decimal rendering with a structural fuel argument (any fuel above the
value itself is enough; `natChars` supplies `n + 1`). -/
def natCharsFuel : Nat → Nat → List Char
  | 0, _ => []
  | fuel + 1, n =>
    if n < 10 then [digitChar n]
    else natCharsFuel fuel (n / 10) ++ [digitChar (n % 10)]

/-- Decimal rendering of a `Nat` (Rust `Display` for unsigned integers). -/
def natChars (n : Nat) : List Char :=
  natCharsFuel (n + 1) n

/-- The four octets of a `u32` IPv4 value. -/
def octet0 (ip : Nat) : Nat := ip / 16777216 % 256
def octet1 (ip : Nat) : Nat := ip / 65536 % 256
def octet2 (ip : Nat) : Nat := ip / 256 % 256
def octet3 (ip : Nat) : Nat := ip % 256

/-- Rust `Ipv4Addr::to_string`: canonical dotted decimal. -/
def ipChars (ip : Nat) : List Char :=
  natChars (octet0 ip) ++ '.' :: natChars (octet1 ip) ++
  '.' :: natChars (octet2 ip) ++ '.' :: natChars (octet3 ip)

/-! ### Endpoint parser (`src/sockparse.rs`) -/

/-- Panic message of the IP-range start parse (`expect("Invalid start IP")`). -/
def msgInvalidStartIp : List Char := "Invalid start IP".data
/-- Panic message of the IP-range end parse (`expect("Invalid end IP")`). -/
def msgInvalidEndIp : List Char := "Invalid end IP".data
/-- Panic message of the reversed IP range. -/
def msgStartLeEnd : List Char :=
  "Start IP must be less than or equal to End IP".data
/-- Panic message of the CIDR parse (`expect("Invalid CIDR format")`). -/
def msgInvalidCidr : List Char := "Invalid CIDR format".data
/-- Panic message of the wildcard shape check. -/
def msgWildcardShape : List Char :=
  "Invalid wildcard IP format. Must be like X.X.X.X or similar.".data
/-- Panic message of a wildcard octet parse (`expect("Invalid octet value")`). -/
def msgInvalidOctet : List Char := "Invalid octet value".data
/-- Panic message of the port-range start parse. -/
def msgInvalidStartPort : List Char := "Invalid start port".data
/-- Panic message of the port-range end parse. -/
def msgInvalidEndPort : List Char := "Invalid end port".data
/-- Panic message of a port-list element parse. -/
def msgInvalidPortNumber : List Char := "Invalid port number".data
/-- Panic message of a single-port parse (`expect("Invalid port")`). -/
def msgInvalidPort : List Char := "Invalid port".data

/-- The candidate range for one wildcard octet: `0..=255` for `"X"`, a
singleton for a fixed octet parsed with the lenient `u8::from_str`
(`octet.parse::<u8>().expect("Invalid octet value")`). -/
def wildcardRange (oct : List Char) : Except (List Char) (List Nat) :=
  if oct = ['X'] then Except.ok ((List.range 256))
  else
    match rustParseU8 oct with
    | some v => Except.ok [v]
    | none => Except.error msgInvalidOctet

/-- Body of the four nested wildcard loops of `parse_ip_input`: the octet
combinations in loop order; a combination is kept when the rendered address
does not end in `".0"` or occurs literally in the (original, un-uppercased)
`input`, exactly as
`if !parsed_ip.to_string().ends_with(".0") || input.contains(...)`. -/
def wildcardExpand (input : List Char) (r0 r1 r2 r3 : List Nat) : List Nat :=
  r0.flatMap fun a =>
    r1.flatMap fun b =>
      r2.flatMap fun c =>
        r3.filterMap fun d =>
          let rendered := natChars a ++ '.' :: natChars b ++
            '.' :: natChars c ++ '.' :: natChars d
          match rustParseIpv4 rendered with
          | some ip =>
            if !endsWithSeg (ipChars ip) ['.', '0'] ||
                containsSeg input (ipChars ip) then
              some ip
            else
              none
          | none => none

/-- Addresses yielded by `ipnetwork::Ipv4Network::iter` for the network
containing address `ip` with prefix length `pfxLen` (modelled from the
`ipnetwork` crate, a third-party dependency: every address of the block
from the network address through the broadcast address, ascending). -/
def cidrAddresses (ip pfxLen : Nat) : List Nat :=
  (List.range (2 ^ (32 - pfxLen))).map
    (fun i => ip / 2 ^ (32 - pfxLen) * 2 ^ (32 - pfxLen) + i)

/-- `parse_ip_input` of `src/sockparse.rs`. Addresses are `u32` values.
A Rust `panic!`/`expect` is `Except.error` with the panic message. The
CIDR parse (`normalized_input.parse::<Ipv4Network>()`) is modelled from
the `ipnetwork` crate: address part per `Ipv4Addr::from_str`, prefix part
per `u8::from_str` and at most 32. -/
def parse_ip_input (input : List Char) : Except (List Char) (List Nat) :=
  let norm := upperList input
  if norm.contains '-' then
    match splitChar '-' norm with
    | [p0, p1] =>
      match rustParseIpv4 p0 with
      | none => Except.error msgInvalidStartIp
      | some s =>
        match rustParseIpv4 p1 with
        | none => Except.error msgInvalidEndIp
        | some e =>
          if s > e then Except.error msgStartLeEnd
          else Except.ok ((List.range (e + 1 - s)).map (fun i => s + i))
    | _ => Except.ok []
  else if norm.contains '/' then
    match splitChar '/' norm with
    | [a, p] =>
      match rustParseIpv4 a, rustParseU8 p with
      | some ip, some pfxLen =>
        if pfxLen ≤ 32 then Except.ok (cidrAddresses ip pfxLen)
        else Except.error msgInvalidCidr
      | _, _ => Except.error msgInvalidCidr
    | _ => Except.error msgInvalidCidr
  else if norm.contains 'X' then
    match splitChar '.' norm with
    | [o0, o1, o2, o3] =>
      match wildcardRange o0 with
      | Except.error e => Except.error e
      | Except.ok r0 =>
        match wildcardRange o1 with
        | Except.error e => Except.error e
        | Except.ok r1 =>
          match wildcardRange o2 with
          | Except.error e => Except.error e
          | Except.ok r2 =>
            match wildcardRange o3 with
            | Except.error e => Except.error e
            | Except.ok r3 => Except.ok (wildcardExpand input r0 r1 r2 r3)
    | _ => Except.error msgWildcardShape
  else
    match rustParseIpv4 norm with
    | some ip => Except.ok [ip]
    | none => Except.ok []

/-- `parse_port_input` of `src/sockparse.rs`. A reversed range `a-b` with
`a > b` iterates the empty Rust range `a..=b`, hence yields `[]`. -/
def parse_port_input (input : List Char) : Except (List Char) (List Nat) :=
  if input.contains '-' then
    match splitChar '-' input with
    | [p0, p1] =>
      match rustParseU16 p0 with
      | none => Except.error msgInvalidStartPort
      | some s =>
        match rustParseU16 p1 with
        | none => Except.error msgInvalidEndPort
        | some e => Except.ok ((List.range (e + 1 - s)).map (fun i => s + i))
    | _ => Except.ok []
  else if input.contains ',' then
    let parts := splitChar ',' input
    parts.foldl
      (fun acc p =>
        match acc with
        | Except.error e => Except.error e
        | Except.ok ports =>
          match rustParseU16 (trimList p) with
          | some v => Except.ok (ports ++ [v])
          | none => Except.error msgInvalidPortNumber)
      (Except.ok [])
  else
    match rustParseU16 input with
    | some p => Except.ok [p]
    | none => Except.error msgInvalidPort

/-! ### Shared types and endpoint composition (`src/core/types.rs`, `src/main.rs`) -/

/-- `AddrType` of `src/core/types.rs`. -/
inductive AddrType where
  | IPv4
  | IPv6
  | TCP
  | UDP
deriving DecidableEq, Repr

/-- `AddrData` of `src/core/types.rs`: endpoint record with the four IPv4
octets and the port. -/
structure AddrData where
  info : AddrType
  socket_type : AddrType
  address : Nat × Nat × Nat × Nat
  port : Nat
deriving DecidableEq, Repr

/-- Octet tuple of a `u32` address, as `Ipv4Addr::octets()`. -/
def octetsOf (ip : Nat) : Nat × Nat × Nat × Nat :=
  (octet0 ip, octet1 ip, octet2 ip, octet3 ip)

/-- Endpoint composition of `start_multi_port_server` (`src/main.rs`):
`ips.iter().flat_map(|ip| ports.iter().map(move |port| AddrData { .. }))`.
IPs are `u32` values as produced by `parse_ip_input`. -/
def addr_data_list (ips : List Nat) (ports : List Nat) : List AddrData :=
  ips.flatMap fun ip =>
    ports.map fun port =>
      { info := AddrType.IPv4
        socket_type := AddrType.TCP
        address := octetsOf ip
        port := port }

/-! ### Error registry (`src/lib.rs`) -/

/-- Wrap to a `u64` value. -/
def wrap64 (n : Nat) : Nat := n % 2 ^ 64

/-- `u64` rotate left by `b` bits. -/
def rotl64 (x b : Nat) : Nat :=
  wrap64 (x * 2 ^ b + x / 2 ^ (64 - b))

/-- `u64` wrapping addition. -/
def add64 (x y : Nat) : Nat := wrap64 (x + y)

/-- `u64` xor (operands are kept below `2^64`, the wrap is then exact). -/
def xor64 (x y : Nat) : Nat := wrap64 (x ^^^ y)

/-- State of the SipHash round function: the four `u64` words. -/
structure SipState where
  v0 : Nat
  v1 : Nat
  v2 : Nat
  v3 : Nat

/-- One SipHash round (the `SIPROUND` ARX step used by Rust's
`DefaultHasher`). -/
def sipRound (s : SipState) : SipState :=
  let v0 := add64 s.v0 s.v1
  let v1 := rotl64 s.v1 13
  let v1 := xor64 v1 v0
  let v0 := rotl64 v0 32
  let v2 := add64 s.v2 s.v3
  let v3 := rotl64 s.v3 16
  let v3 := xor64 v3 v2
  let v0 := add64 v0 v3
  let v3 := rotl64 v3 21
  let v3 := xor64 v3 v0
  let v2 := add64 v2 v1
  let v1 := rotl64 v1 17
  let v1 := xor64 v1 v2
  let v2 := rotl64 v2 32
  ⟨v0, v1, v2, v3⟩

/-- Fold a little-endian 8-byte word into the state: `v3 ^= m`, one round,
`v0 ^= m` (SipHash-1-3 uses one compression round). -/
def sipCompress (s : SipState) (m : Nat) : SipState :=
  let s := { s with v3 := xor64 s.v3 m }
  let s := sipRound s
  { s with v0 := xor64 s.v0 m }

/-- Little-endian word value of a byte list (at most 8 bytes). -/
def leWord (bytes : List Nat) : Nat :=
  bytes.foldr (fun b acc => acc * 256 + b) 0

/-- Split a byte stream into full 8-byte words and the remainder. -/
def sipBlocks : List Nat → List (List Nat) × List Nat
  | b0 :: b1 :: b2 :: b3 :: b4 :: b5 :: b6 :: b7 :: rest =>
    let (ws, tail) := sipBlocks rest
    ([b0, b1, b2, b3, b4, b5, b6, b7] :: ws, tail)
  | rest => ([], rest)

/-- SipHash-1-3 with key `(0, 0)` over a byte stream, as computed by Rust's
`std::collections::hash_map::DefaultHasher`. -/
def sipHash13Bytes (msg : List Nat) : Nat :=
  let s : SipState :=
    ⟨0x736f6d6570736575, 0x646f72616e646f6d,
     0x6c7967656e657261, 0x7465646279746573⟩
  let (words, tail) := sipBlocks msg
  let s := words.foldl (fun st w => sipCompress st (leWord w)) s
  let lastWord := wrap64 (msg.length % 256 * 2 ^ 56 + leWord tail)
  let s := sipCompress s lastWord
  let s := { s with v2 := xor64 s.v2 0xff }
  let s := sipRound (sipRound (sipRound s))
  xor64 (xor64 s.v0 s.v1) (xor64 s.v2 s.v3)

/-- UTF-8 encoding of one character (Rust `str::as_bytes` is the UTF-8
encoding of the string). -/
def utf8Bytes (c : Char) : List Nat :=
  let n := c.toNat
  if n < 0x80 then [n]
  else if n < 0x800 then
    [0xC0 + n / 64, 0x80 + n % 64]
  else if n < 0x10000 then
    [0xE0 + n / 4096, 0x80 + n / 64 % 64, 0x80 + n % 64]
  else
    [0xF0 + n / 262144, 0x80 + n / 4096 % 64, 0x80 + n / 64 % 64, 0x80 + n % 64]

/-- Hash of a Rust `&str` under `DefaultHasher`: `Hash for str` feeds the
UTF-8 bytes followed by the sentinel byte `0xFF` to SipHash-1-3. -/
def sipHash13Str (s : List Char) : Nat :=
  sipHash13Bytes ((s.flatMap utf8Bytes) ++ [0xff])

/-- `ErrorRegistry` of `src/lib.rs`: `HashMap<u64, String>` modelled as an
association list from ids to error texts. -/
structure ErrorRegistry where
  errors : List (Nat × List Char)
deriving DecidableEq, Repr

/-- Empty registry (`ErrorRegistry::new`). -/
def ErrorRegistry.new : ErrorRegistry := ⟨[]⟩

/-- `ErrorRegistry::register_error` (`src/lib.rs`): the id is the
`DefaultHasher` hash of the text; `entry(id).or_insert_with` keeps the
first text stored under an id. -/
def ErrorRegistry.register_error (r : ErrorRegistry) (error : List Char) :
    Nat × ErrorRegistry :=
  let id := sipHash13Str error
  (id,
   if (r.errors.lookup id).isSome then r
   else ⟨r.errors ++ [(id, error)]⟩)

/-! ### Discovery log (`src/core/discovery.rs`) -/

/-- Socket address: IPv4 `u32` value and port. -/
structure SockAddr where
  ip : Nat
  port : Nat
deriving DecidableEq, Repr

/-- In-memory state of `ServiceDiscovery`: the latest payload per peer,
`HashMap<SocketAddr, String>` modelled as an association list. -/
structure ServiceDiscovery where
  discoveries : List (SockAddr × List Char)
deriving DecidableEq, Repr

/-- `ServiceDiscovery::new`. -/
def ServiceDiscovery.new : ServiceDiscovery := ⟨[]⟩

/-- Insert or replace under a key (`HashMap::insert`). -/
def assocInsert (m : List (SockAddr × List Char)) (k : SockAddr)
    (v : List Char) : List (SockAddr × List Char) :=
  if (m.lookup k).isSome then
    m.map fun p => if p.fst = k then (k, v) else p
  else
    m ++ [(k, v)]

/-- The `formatted_entry` string built by `record_service`:
`format!("[{}] {}:{}\n{}\n{}\n", timestamp, addr.ip(), addr.port(),
"-".repeat(50), content.trim())`. The timestamp rendering
(`chrono::Local::now()`, wall clock) is a parameter. -/
def formatted_entry (ts : List Char) (addr : SockAddr) (content : List Char) :
    List Char :=
  '[' :: ts ++ ']' :: ' ' :: ipChars addr.ip ++ ':' :: natChars addr.port ++
  '\n' :: List.replicate 50 '-' ++ '\n' :: trimList content ++ ['\n']

/-- The bytes `record_service` appends to the log file:
`writeln!(file, "{}", formatted_entry)` writes the entry plus one more
newline. -/
def record_append (ts : List Char) (addr : SockAddr) (content : List Char) :
    List Char :=
  formatted_entry ts addr content ++ ['\n']

/-- `ServiceDiscovery::record_service`: updates the in-memory map with the
raw payload and appends `record_append` to the log file. Returns the new
state and the appended bytes. -/
def ServiceDiscovery.record_service (d : ServiceDiscovery) (ts : List Char)
    (addr : SockAddr) (content : List Char) : ServiceDiscovery × List Char :=
  (⟨assocInsert d.discoveries addr content⟩, record_append ts addr content)

/-! ### Connection handler (`src/core/handlers.rs`) -/

/-- The HTTP response built by `handle_connection`: the interpolated port is
`addr.port()` where `addr` is the handler's peer-address argument, and the
timestamp is rendered when the response is built, immediately before the
final send. -/
def handle_connection_response (addr : SockAddr) (now : List Char) :
    List Char :=
  "HTTP/1.1 200 OK\r\nContent-Type: text/html\r\n\r\n<html><body><h1>Port ".data
  ++ natChars addr.port ++ "</h1><p>Active since: ".data ++ now ++
  "</p></body></html>".data

/-! ### Listener manager (`src/core/network.rs`)

The manager's `run` is embedded as a finite-trace function: the outcome of
each `TcpListener::bind` and each `accept` is supplied by an oracle (a bound
listener's accept loop is given a finite script of accept events). Listener
tasks are processed in spawn order; within a task, events in program order. -/

/-- One event delivered to a listener's accept loop. -/
inductive AcceptEvent where
  | conn (peer : SockAddr)
  | err (msg : List Char)
deriving DecidableEq, Repr

/-- Outcome of `TcpListener::bind` for one endpoint. -/
inductive BindOutcome where
  | bound (events : List AcceptEvent)
  | bindErr (msg : List Char)
deriving DecidableEq, Repr

/-- `ListenerManager` of `src/core/network.rs` (the fields the embedded
`run` consumes). -/
structure ListenerManager where
  addr_data : List AddrData
  max_concurrent : Nat

/-- `ListenerManager::new`. -/
def ListenerManager.new (addr_data : List AddrData) (max_concurrent : Nat) :
    ListenerManager :=
  { addr_data := addr_data, max_concurrent := max_concurrent }

/-- `socket_addr_create` of `src/core/types.rs`. -/
def socket_addr_create (address : Nat × Nat × Nat × Nat) (port : Nat) :
    SockAddr :=
  { ip := u32OfOctets address.1 address.2.1 address.2.2.1 address.2.2.2
    port := port }

/-- A spawned `handle_connection` invocation: the socket-address argument
`addr` passed to the handler (bound by the accept loop to the peer address
returned by `accept`). -/
structure HandlerCall where
  addr : SockAddr
deriving DecidableEq, Repr

/-- Trace of one embedded `run`. -/
structure RunResult where
  /-- Initial permit count of the semaphore created by `run`
  (`Semaphore::new(self.max_concurrent)`). -/
  semaphorePermits : Nat
  /-- Handler tasks spawned, in accept order. -/
  handlers : List HandlerCall
  /-- Error-registry state after all bind/accept error registrations. -/
  registry : ErrorRegistry
  /-- Return value of `run` (`Ok(())`). -/
  result : Except (List Char) Unit

/-- One listener task of `run`: on bind failure register the error and
terminate; on success dispatch each accept event, spawning a handler for a
connection and registering an accept error otherwise. -/
def listenerTask (registry : ErrorRegistry) (outcome : BindOutcome) :
    ErrorRegistry × List HandlerCall :=
  match outcome with
  | BindOutcome.bindErr e =>
    ((registry.register_error e).snd, [])
  | BindOutcome.bound events =>
    events.foldl
      (fun acc ev =>
        match ev with
        | AcceptEvent.conn peer => (acc.fst, acc.snd ++ [⟨peer⟩])
        | AcceptEvent.err e => ((acc.fst.register_error e).snd, acc.snd))
      (registry, [])

/-- Sequential processing of the listener tasks, threading the shared
error registry and collecting spawned handler calls in order. -/
def runTasks (registry : ErrorRegistry) :
    List BindOutcome → ErrorRegistry × List HandlerCall
  | [] => (registry, [])
  | oc :: rest =>
    let (reg1, calls) := listenerTask registry oc
    let (reg2, more) := runTasks reg1 rest
    (reg2, calls ++ more)

/-- `ListenerManager::run` (`src/core/network.rs`) as a finite trace:
creates the semaphore with `max_concurrent` permits, spawns one listener
task per endpoint in order, and returns `Ok(())` after all tasks finish.
`oracle i` is the bind/accept script of the `i`-th endpoint. -/
def ListenerManager.run (m : ListenerManager) (oracle : Nat → BindOutcome) :
    RunResult :=
  let outcomes := (List.range m.addr_data.length).map oracle
  let final := runTasks ErrorRegistry.new outcomes
  { semaphorePermits := m.max_concurrent
    handlers := final.snd
    registry := final.fst
    result := Except.ok () }

/-! ### Worker calibrator (`src/utils/helpers.rs`)

The calibration benchmark itself (wall-clock windows, `f32` CPU sampling,
thread scheduling) is real-time and floating-point behaviour; its result is
passed in as the `search` parameter. The control flow around it — cache
read short-circuit, `expect` on both `write_metrics_to_file` calls — is
embedded faithfully: `none` is a Rust panic. -/

/-- `SystemMetrics` of `src/utils/helpers.rs` (the integer fields; the
`f32`/`f64` measurement fields are not used by any claim and floating
point is outside the embedding). -/
structure SystemMetrics where
  optimal_threads : Nat
  total_workers : Nat
  total_tasks : Nat
  total_threads : Nat
deriving DecidableEq, Repr

/-- `find_optimal_workers`: the search loop's result is the oracle
parameter `search`; before returning, the function calls
`write_metrics_to_file(&metrics).expect(..)`, so a failed write panics
(`none`). -/
def find_optimal_workers (search : Nat × SystemMetrics)
    (writeOk : Bool) : Option (Nat × SystemMetrics) :=
  if writeOk then some search else none

/-- `get_thread_factor`: if the metrics file reads and parses
(`readResult = some m`), return `m.optimal_threads` verbatim without
running any benchmark; otherwise run `find_optimal_workers` and then
`write_metrics_to_file(&metrics).expect(..)` again — each failed write
panics (`none`). -/
def get_thread_factor (readResult : Option SystemMetrics)
    (search : Nat × SystemMetrics) (writeInner writeOuter : Bool) :
    Option Nat :=
  match readResult with
  | some m => some m.optimal_threads
  | none =>
    match find_optimal_workers search writeInner with
    | none => none
    | some (optimal, _) =>
      if writeOuter then some optimal else none

/-! ### Spec-side definitions used to state claims -/

/-- Header line of a discovery record, per the spec:
`[<local-timestamp>] <ip>:<port>`. -/
def record_header (ts : List Char) (addr : SockAddr) : List Char :=
  '[' :: ts ++ ']' :: ' ' :: ipChars addr.ip ++ ':' :: natChars addr.port

/-- The handler call an accept event gives rise to, per the spec of the
accept loop: a connection spawns a handler on the peer address, an accept
error spawns none. -/
def connPeerCall (ev : AcceptEvent) : Option HandlerCall :=
  match ev with
  | AcceptEvent.conn peer => some ⟨peer⟩
  | AcceptEvent.err _ => none

/-- Handler calls a whole listener task gives rise to: none on bind
failure, one per accepted connection in accept order otherwise. -/
def taskHandlerCalls (oc : BindOutcome) : List HandlerCall :=
  match oc with
  | BindOutcome.bound events => events.filterMap connPeerCall
  | BindOutcome.bindErr _ => []

/-- Network address of the CIDR block containing `ip` with prefix length
`pfxLen` (host bits cleared). -/
def networkOf (ip pfxLen : Nat) : Nat :=
  ip / 2 ^ (32 - pfxLen) * 2 ^ (32 - pfxLen)

/-- Broadcast address of the same block (host bits set). -/
def broadcastOf (ip pfxLen : Nat) : Nat :=
  networkOf ip pfxLen + (2 ^ (32 - pfxLen) - 1)

/-- Wildcard expansion as the spec states it: the Cartesian product of the
per-octet candidate lists in ascending octet order, keeping an address
unless its last octet is 0 and it does not occur literally in the input
string. -/
def wildcardSpecExpansion (input : List Char) (r0 r1 r2 r3 : List Nat) :
    List Nat :=
  (r0.flatMap fun a =>
    r1.flatMap fun b =>
      r2.flatMap fun c =>
        r3.map fun d => u32OfOctets a b c d).filter
    (fun ip => octet3 ip ≠ 0 || containsSeg input (ipChars ip))

/-! ## Helper lemmas -/

theorem addr_data_list_cons (ip : Nat) (ips ports : List Nat) :
    addr_data_list (ip :: ips) ports =
      ports.map (fun port =>
        { info := AddrType.IPv4, socket_type := AddrType.TCP,
          address := octetsOf ip, port := port }) ++ addr_data_list ips ports := by
  simp [addr_data_list]

theorem addr_data_list_length (ips ports : List Nat) :
    (addr_data_list ips ports).length = ips.length * ports.length := by
  induction ips with
  | nil => simp [addr_data_list]
  | cons ip ips ih =>
    simp only [addr_data_list_cons, List.length_append, List.length_map,
      List.length_cons, ih, Nat.succ_mul]
    omega

theorem addr_data_list_get (ips ports : List Nat) (i j : Nat)
    (hi : i < ips.length) (hj : j < ports.length) :
    (addr_data_list ips ports)[i * ports.length + j]? =
      some { info := AddrType.IPv4, socket_type := AddrType.TCP,
             address := octetsOf (ips.get ⟨i, hi⟩), port := ports.get ⟨j, hj⟩ } := by
  induction ips generalizing i with
  | nil => exact absurd hi (Nat.not_lt_zero i)
  | cons ip ips ih =>
    rcases i with _ | i
    · rw [addr_data_list_cons]
      rw [List.getElem?_append_left (by simpa using hj)]
      simp [List.getElem?_map, List.getElem?_eq_getElem hj, List.get_eq_getElem]
    · rw [addr_data_list_cons]
      rw [List.getElem?_append_right (by simp [Nat.succ_mul]; omega)]
      simp only [List.length_map]
      have harith : (i + 1) * ports.length + j - ports.length =
          i * ports.length + j := by
        simp [Nat.succ_mul]; omega
      rw [harith, ih i (Nat.succ_lt_succ_iff.mp hi)]
      simp [List.get_eq_getElem]

/-! ## Claim theorems -/

/-- C1: for every IP sequence and every port sequence produced by parsing,
endpoint composition produces exactly `|IPs| × |ports|` endpoints, ordered
row-major with the IP sequence as the outer loop and the port sequence as
the inner loop, each endpoint carrying the octets of its IP and its port
unchanged. -/
theorem C1_endpoint_composition (ips ports : List Nat) :
    (addr_data_list ips ports).length = ips.length * ports.length ∧
    ∀ i j (hi : i < ips.length) (hj : j < ports.length),
      (addr_data_list ips ports)[i * ports.length + j]? =
        some { info := AddrType.IPv4, socket_type := AddrType.TCP,
               address := octetsOf (ips.get ⟨i, hi⟩),
               port := ports.get ⟨j, hj⟩ } :=
  ⟨addr_data_list_length ips ports,
   fun i j hi hj => addr_data_list_get ips ports i j hi hj⟩

/-- Witness for C1 at a concrete input: two addresses and two ports give
four endpoints, and the endpoint at row-major index `1 * 2 + 1` is the
second IP paired with the second port. -/
theorem C1_endpoint_composition_witness :
    (addr_data_list [167772161, 167772162] [22, 23]).length = 2 * 2 ∧
    (addr_data_list [167772161, 167772162] [22, 23])[1 * 2 + 1]? =
      some { info := AddrType.IPv4, socket_type := AddrType.TCP,
             address := octetsOf 167772162, port := 23 } :=
  ⟨(C1_endpoint_composition [167772161, 167772162] [22, 23]).1,
   (C1_endpoint_composition [167772161, 167772162] [22, 23]).2 1 1
     (by decide) (by decide)⟩

/-- C4 counterexample: on the empty endpoint set, `ListenerManager::run`
returns `Ok(())` with an empty error registry and no handlers — no
configuration error is reported, contrary to the claim. -/
theorem C4_counterexample :
    ((ListenerManager.new [] 4).run fun _ => BindOutcome.bindErr []) =
      { semaphorePermits := 4, handlers := [], registry := ErrorRegistry.new,
        result := Except.ok () } :=
  rfl

/-- C4 amended: if the expanded endpoint set is empty, the Listener
Manager does not report any error: `run` binds nothing, registers nothing,
spawns nothing, and returns success. -/
theorem C4_amended (maxc : Nat) (oracle : Nat → BindOutcome) :
    ((ListenerManager.new [] maxc).run oracle).result = Except.ok () ∧
    ((ListenerManager.new [] maxc).run oracle).registry = ErrorRegistry.new ∧
    ((ListenerManager.new [] maxc).run oracle).handlers = [] :=
  ⟨rfl, rfl, rfl⟩

/-- C9 counterexample: with no readable cache and a computed optimum of 7
workers, a failing calibration-file write makes `get_thread_factor` panic
(`none`) via `expect`, rather than return the computed value `some 7`. -/
theorem C9_counterexample :
    get_thread_factor none (7, ⟨7, 1, 0, 0⟩) true false = none ∧
    get_thread_factor none (7, ⟨7, 1, 0, 0⟩) true false ≠ some 7 :=
  ⟨rfl, by decide⟩

/-- C9 amended: on a calibration-file write failure (either the write
inside `find_optimal_workers` or the one in `get_thread_factor`), the
calibrator panics via `expect` instead of logging and continuing; only
when both writes succeed does it return the computed optimal count. -/
theorem C9_amended :
    (∀ (search : Nat × SystemMetrics) (writeInner writeOuter : Bool),
      writeInner = false ∨ writeOuter = false →
      get_thread_factor none search writeInner writeOuter = none) ∧
    (∀ search : Nat × SystemMetrics,
      get_thread_factor none search true true = some search.fst) := by
  constructor
  · rintro ⟨opt, m⟩ wi wo (rfl | rfl)
    · rfl
    · cases wi <;> rfl
  · rintro ⟨opt, m⟩
    rfl

/-- Witness for C9 amended: a failing outer write at a concrete computed
optimum panics. -/
theorem C9_amended_witness :
    get_thread_factor none (7, ⟨7, 1, 0, 0⟩) true false = none :=
  C9_amended.1 (7, ⟨7, 1, 0, 0⟩) true false (Or.inr rfl)

/-- C10: when the metrics cache file exists and parses, `get_thread_factor`
returns its `optimal_threads` field verbatim — independent of the benchmark
oracle and of the write outcomes, with no range validation — and that value
becomes the initial permit count of the semaphore created by
`ListenerManager::run`; in particular a cached `optimal_threads = 0` yields
0 permits. -/
theorem C10_cached_thread_factor (m : SystemMetrics)
    (search : Nat × SystemMetrics) (w1 w2 : Bool) (addrs : List AddrData)
    (oracle : Nat → BindOutcome) :
    get_thread_factor (some m) search w1 w2 = some m.optimal_threads ∧
    ((ListenerManager.new addrs m.optimal_threads).run oracle).semaphorePermits
      = m.optimal_threads ∧
    get_thread_factor (some ⟨0, 0, 0, 0⟩) search w1 w2 = some 0 ∧
    ((ListenerManager.new addrs 0).run oracle).semaphorePermits = 0 :=
  ⟨rfl, rfl, rfl, rfl⟩

/-! ### C2: behaviour of the parsers on malformed input -/

theorem parse_ip_multidash (input : List Char)
    (h1 : '-' ∈ upperList input)
    (h2 : (splitChar '-' (upperList input)).length ≠ 2) :
    parse_ip_input input = Except.ok [] := by
  unfold parse_ip_input
  simp only [h1, if_true]
  rcases hs : splitChar '-' (upperList input) with _ | ⟨p0, _ | ⟨p1, _ | ⟨p2, rest⟩⟩⟩ <;>
    simp_all

theorem parse_port_reversed_range (input p0 p1 : List Char) (s e : Nat)
    (h1 : '-' ∈ input)
    (hs : splitChar '-' input = [p0, p1])
    (hp0 : rustParseU16 p0 = some s) (hp1 : rustParseU16 p1 = some e)
    (hlt : e < s) :
    parse_port_input input = Except.ok [] := by
  unfold parse_port_input
  have hc : input.contains '-' = true := by simp [h1]
  rw [if_pos hc, hs]
  have h0 : e + 1 - s = 0 := by omega
  simp [hp0, hp1, h0]

theorem parse_ip_invalid_literal (input : List Char)
    (h1 : '-' ∉ upperList input)
    (h2 : '/' ∉ upperList input)
    (h3 : 'X' ∉ upperList input)
    (h4 : rustParseIpv4 (upperList input) = none) :
    parse_ip_input input = Except.ok [] := by
  unfold parse_ip_input
  simp [h1, h2, h3, h4]

theorem parse_ip_bad_range_start (input p0 p1 : List Char)
    (h1 : '-' ∈ upperList input)
    (hs : splitChar '-' (upperList input) = [p0, p1])
    (hp : rustParseIpv4 p0 = none) :
    parse_ip_input input = Except.error msgInvalidStartIp := by
  unfold parse_ip_input
  simp [h1, hs, hp]

theorem parse_port_invalid_literal (input : List Char)
    (h1 : '-' ∉ input)
    (h2 : ',' ∉ input)
    (h3 : rustParseU16 input = none) :
    parse_port_input input = Except.error msgInvalidPort := by
  unfold parse_port_input
  simp [h1, h2, h3]

/-- C2 counterexample: the port spec `"5-3"` is a range whose start exceeds
its end; the claim requires a parse error, but `parse_port_input` iterates
the empty Rust range `5..=3` and silently returns an empty sequence. -/
theorem C2_counterexample :
    parse_port_input "5-3".data = Except.ok [] := rfl

/-- C2 amended: malformed two-part ranges whose parts fail to parse produce
a parse error (panic), but three whole families of malformed input yield a
silently empty sequence instead of an error: a range with more than one
`-` separator, a port range whose start exceeds its end, and a non-range
non-CIDR non-wildcard string that is not a valid address. -/
theorem C2_amended :
    (∀ input : List Char, '-' ∈ upperList input →
      (splitChar '-' (upperList input)).length ≠ 2 →
      parse_ip_input input = Except.ok []) ∧
    (∀ (input p0 p1 : List Char) (s e : Nat), '-' ∈ input →
      splitChar '-' input = [p0, p1] →
      rustParseU16 p0 = some s → rustParseU16 p1 = some e → e < s →
      parse_port_input input = Except.ok []) ∧
    (∀ input : List Char, '-' ∉ upperList input →
      '/' ∉ upperList input →
      'X' ∉ upperList input →
      rustParseIpv4 (upperList input) = none →
      parse_ip_input input = Except.ok []) ∧
    (∀ input p0 p1 : List Char, '-' ∈ upperList input →
      splitChar '-' (upperList input) = [p0, p1] →
      rustParseIpv4 p0 = none →
      parse_ip_input input = Except.error msgInvalidStartIp) ∧
    (∀ input : List Char, '-' ∉ input →
      ',' ∉ input → rustParseU16 input = none →
      parse_port_input input = Except.error msgInvalidPort) :=
  ⟨parse_ip_multidash, parse_port_reversed_range, parse_ip_invalid_literal,
   parse_ip_bad_range_start, parse_port_invalid_literal⟩

/-- Witness for C2 amended: the IP spec `"1.2.3.4-5.6.7.8-9.9.9.9"` has two
`-` separators and expands to the silently empty sequence. -/
theorem C2_amended_witness :
    parse_ip_input "1.2.3.4-5.6.7.8-9.9.9.9".data = Except.ok [] :=
  C2_amended.1 "1.2.3.4-5.6.7.8-9.9.9.9".data (by decide) (by decide)

/-! ### Splitting, digit and substring lemmas -/

theorem splitChar_of_not_mem {sep : Char} {xs : List Char} (h : sep ∉ xs) :
    splitChar sep xs = [xs] := by
  induction xs with
  | nil => rfl
  | cons c cs ih =>
    have hc : c ≠ sep := fun he => h (he ▸ List.mem_cons_self c cs)
    have hcs : sep ∉ cs := fun hm => h (List.mem_cons_of_mem c hm)
    rw [splitChar, if_neg hc, ih hcs]

theorem splitChar_append_sep {sep : Char} {xs : List Char} (ys : List Char)
    (h : sep ∉ xs) :
    splitChar sep (xs ++ sep :: ys) = xs :: splitChar sep ys := by
  induction xs with
  | nil => simp [splitChar]
  | cons c cs ih =>
    have hc : c ≠ sep := fun he => h (he ▸ List.mem_cons_self c cs)
    have hcs : sep ∉ cs := fun hm => h (List.mem_cons_of_mem c hm)
    rw [List.cons_append, splitChar, if_neg hc, ih hcs]

theorem digitChar_isDigit {n : Nat} (h : n < 10) :
    isDigitChar (digitChar n) = true := by
  interval_cases n <;> decide

theorem natCharsFuel_fuel_irrel (f1 : Nat) :
    ∀ f2 n, n < f1 → n < f2 → natCharsFuel f1 n = natCharsFuel f2 n := by
  induction f1 with
  | zero => intro f2 n h1 _; omega
  | succ f1 ih =>
    intro f2 n h1 h2
    cases f2 with
    | zero => omega
    | succ f2 =>
      by_cases hn : n < 10
      · simp [natCharsFuel, hn]
      · have hdiv : n / 10 < n := Nat.div_lt_self (by omega) (by decide)
        simp only [natCharsFuel, if_neg hn]
        rw [ih f2 (n / 10) (by omega) (by omega)]

theorem natChars_unfold (n : Nat) :
    natChars n =
      if n < 10 then [digitChar n]
      else natChars (n / 10) ++ [digitChar (n % 10)] := by
  by_cases hn : n < 10
  · simp [natChars, natCharsFuel, hn]
  · have hdiv : n / 10 < n := Nat.div_lt_self (by omega) (by decide)
    rw [if_neg hn]
    have hstep : natCharsFuel (n + 1) n =
        natCharsFuel n (n / 10) ++ [digitChar (n % 10)] := by
      simp [natCharsFuel, hn]
    show natCharsFuel (n + 1) n = _
    rw [hstep,
      natCharsFuel_fuel_irrel n (n / 10 + 1) (n / 10) hdiv (by omega)]
    rfl

theorem natChars_digits (n : Nat) :
    ∀ c ∈ natChars n, isDigitChar c = true := by
  induction n using Nat.strong_induction_on with
  | _ n ih =>
    by_cases hn : n < 10
    · rw [natChars_unfold, if_pos hn]
      intro c hc
      rw [List.mem_singleton.mp hc]
      exact digitChar_isDigit hn
    · rw [natChars_unfold, if_neg hn]
      intro c hc
      rcases List.mem_append.mp hc with h | h
      · exact ih (n / 10)
          (Nat.div_lt_self (by omega) (by decide)) c h
      · rw [List.mem_singleton.mp h]
        exact digitChar_isDigit (Nat.mod_lt n (by decide))

theorem isDigit_ne_newline {c : Char} (h : isDigitChar c = true) :
    c ≠ '\n' := by
  intro he
  subst he
  exact absurd h (by decide)

theorem newline_not_mem_natChars (n : Nat) : '\n' ∉ natChars n := by
  intro hm
  exact isDigit_ne_newline (natChars_digits n '\n' hm) rfl

theorem newline_not_mem_ipChars (ip : Nat) : '\n' ∉ ipChars ip := by
  intro hm
  unfold ipChars at hm
  have h0 := newline_not_mem_natChars (octet0 ip)
  have h1 := newline_not_mem_natChars (octet1 ip)
  have h2 := newline_not_mem_natChars (octet2 ip)
  have h3 := newline_not_mem_natChars (octet3 ip)
  have hdot : ('\n' : Char) ≠ '.' := by decide
  simp only [List.mem_append, List.mem_cons] at hm
  tauto

theorem startsWithSeg_append (pat ys : List Char) :
    startsWithSeg (pat ++ ys) pat = true := by
  induction pat with
  | nil => simp [startsWithSeg]
  | cons p ps ih => simp [startsWithSeg, ih]

theorem containsSeg_of_startsWith {s pat : List Char}
    (h : startsWithSeg s pat = true) : containsSeg s pat = true := by
  cases s with
  | nil =>
    cases pat with
    | nil => rfl
    | cons p ps => exact absurd h (by simp [startsWithSeg])
  | cons c cs => simp [containsSeg, h]

theorem containsSeg_append_left (xs : List Char) {zs pat : List Char}
    (h : containsSeg zs pat = true) : containsSeg (xs ++ zs) pat = true := by
  induction xs with
  | nil => exact h
  | cons c cs ih => simp [containsSeg, ih]

theorem containsSeg_of_middle (xs pat ys : List Char) :
    containsSeg (xs ++ pat ++ ys) pat = true := by
  have h1 : containsSeg (pat ++ ys) pat = true :=
    containsSeg_of_startsWith (startsWithSeg_append pat ys)
  rw [List.append_assoc]
  exact containsSeg_append_left xs h1

/-! ### C5: discovery-record shape -/

theorem newline_not_mem_header {ts : List Char} (addr : SockAddr)
    (hts : '\n' ∉ ts) : '\n' ∉ record_header ts addr := by
  intro hm
  unfold record_header at hm
  have hip := newline_not_mem_ipChars addr.ip
  have hport := newline_not_mem_natChars addr.port
  have hbr : ('\n' : Char) ≠ '[' ∧ ('\n' : Char) ≠ ']' ∧
      ('\n' : Char) ≠ ' ' ∧ ('\n' : Char) ≠ ':' := by decide
  simp only [List.mem_cons, List.mem_append] at hm
  tauto

theorem newline_not_mem_dashes :
    '\n' ∉ (List.replicate 50 '-' : List Char) := by
  intro hm
  exact absurd (List.eq_of_mem_replicate hm) (by decide)

/-- C5 counterexample: a payload whose trimmed form contains a newline
(`"a\nb"`) produces a record of six newline-separated fields — with the
fourth field `"b"`, not blank — so the record is not five lines of the
claimed header/separator/payload/blank/blank shape. -/
theorem C5_counterexample :
    splitChar '\n'
      ((ServiceDiscovery.new.record_service "2025-01-06 12:00:00".data
        ⟨u32OfOctets 10 0 0 1, 80⟩ "a\nb".data).snd) =
      ["[2025-01-06 12:00:00] 10.0.0.1:80".data,
       List.replicate 50 '-', ['a'], ['b'], [], []] := by
  decide

/-- C5 amended: every `record_service` call appends exactly one record:
the header `[<timestamp>] <ip>:<port>`, a separator of exactly 50 dashes,
the trimmed payload, and two terminating newlines; provided the rendered
timestamp and the trimmed payload contain no newline, splitting the
appended bytes on newlines yields exactly the five fields
header / 50 dashes / trimmed payload / blank / blank. -/
theorem C5_amended (d : ServiceDiscovery) (ts : List Char) (addr : SockAddr)
    (content : List Char) (hts : '\n' ∉ ts)
    (hc : '\n' ∉ trimList content) :
    (d.record_service ts addr content).snd =
      record_header ts addr ++ '\n' :: List.replicate 50 '-' ++
        '\n' :: trimList content ++ ['\n', '\n'] ∧
    splitChar '\n' (d.record_service ts addr content).snd =
      [record_header ts addr, List.replicate 50 '-', trimList content,
       [], []] ∧
    (d.record_service ts addr content).fst.discoveries =
      assocInsert d.discoveries addr content := by
  have hshape : (d.record_service ts addr content).snd =
      record_header ts addr ++ '\n' :: (List.replicate 50 '-' ++
        '\n' :: (trimList content ++ '\n' :: ['\n'])) := by
    simp [ServiceDiscovery.record_service, record_append, formatted_entry,
      record_header, List.append_assoc]
  refine ⟨by simpa [List.append_assoc] using hshape, ?_, rfl⟩
  rw [hshape, splitChar_append_sep _ (newline_not_mem_header addr hts),
    splitChar_append_sep _ newline_not_mem_dashes,
    splitChar_append_sep _ hc]
  rfl

/-- Witness for C5 amended at a concrete timestamp, peer and payload with
surrounding whitespace. -/
theorem C5_amended_witness :
    splitChar '\n'
      ((ServiceDiscovery.new.record_service "2025-01-06 12:00:00".data
        ⟨u32OfOctets 10 0 0 1, 80⟩ "  hello  ".data).snd) =
      [record_header "2025-01-06 12:00:00".data ⟨u32OfOctets 10 0 0 1, 80⟩,
       List.replicate 50 '-', trimList "  hello  ".data, [], []] :=
  (C5_amended ServiceDiscovery.new "2025-01-06 12:00:00".data
    ⟨u32OfOctets 10 0 0 1, 80⟩ "  hello  ".data (by decide) (by decide)).2.1

/-! ### C3: the port interpolated into the HTTP response -/

theorem listenerTask_snd (reg : ErrorRegistry) (oc : BindOutcome) :
    (listenerTask reg oc).snd = taskHandlerCalls oc := by
  cases oc with
  | bindErr e => rfl
  | bound events =>
    show (events.foldl _ (reg, [])).snd = events.filterMap connPeerCall
    suffices h : ∀ (r : ErrorRegistry) (hs : List HandlerCall),
        (events.foldl
          (fun acc ev =>
            match ev with
            | AcceptEvent.conn peer => (acc.fst, acc.snd ++ [⟨peer⟩])
            | AcceptEvent.err e => ((acc.fst.register_error e).snd, acc.snd))
          (r, hs)).snd = hs ++ events.filterMap connPeerCall by
      simpa using h reg []
    induction events with
    | nil => intro r hs; simp
    | cons ev rest ih =>
      intro r hs
      cases ev with
      | conn peer => simp [List.foldl_cons, ih, connPeerCall]
      | err e => simp [List.foldl_cons, ih, connPeerCall]

theorem runTasks_snd (reg : ErrorRegistry) (ocs : List BindOutcome) :
    (runTasks reg ocs).snd = ocs.flatMap taskHandlerCalls := by
  induction ocs generalizing reg with
  | nil => rfl
  | cons oc rest ih =>
    show ((listenerTask reg oc).snd ++
        (runTasks (listenerTask reg oc).fst rest).snd) = _
    rw [listenerTask_snd, ih]
    simp

/-- C3 counterexample: a listener on local endpoint `127.0.0.1:8080`
accepts a connection from peer port 51234; the spawned handler receives
the peer address, and its response says `<h1>Port 51234</h1>` — the local
accept port 8080 appears nowhere in it. -/
theorem C3_counterexample :
    ((ListenerManager.new
        [{ info := AddrType.IPv4, socket_type := AddrType.TCP,
           address := (127, 0, 0, 1), port := 8080 }] 4).run
      (fun _ => BindOutcome.bound
        [AcceptEvent.conn ⟨u32OfOctets 127 0 0 1, 51234⟩])).handlers =
      [⟨⟨u32OfOctets 127 0 0 1, 51234⟩⟩] ∧
    containsSeg
      (handle_connection_response ⟨u32OfOctets 127 0 0 1, 51234⟩
        "2025-01-06 12:00:00".data)
      "<h1>Port 51234</h1>".data = true ∧
    containsSeg
      (handle_connection_response ⟨u32OfOctets 127 0 0 1, 51234⟩
        "2025-01-06 12:00:00".data)
      "Port 8080".data = false := by
  refine ⟨by decide, by decide, by decide⟩

/-- C3 amended: the accept loop spawns the connection handler on the peer
address returned by `accept`, and the handler's response interpolates that
peer address's port between the `<h1>Port ` and `</h1>` markers (not any
property of the listener's local endpoint); the timestamp is rendered when
the response is built, immediately before the final send. -/
theorem C3_amended :
    (∀ (m : ListenerManager) (oracle : Nat → BindOutcome),
      (m.run oracle).handlers =
        ((List.range m.addr_data.length).map oracle).flatMap
          taskHandlerCalls) ∧
    (∀ (peer : SockAddr) (now : List Char),
      containsSeg (handle_connection_response peer now)
        ("<h1>Port ".data ++ natChars peer.port ++ "</h1>".data) = true) := by
  constructor
  · intro m oracle
    exact runTasks_snd ErrorRegistry.new _
  · intro peer now
    have hshape : handle_connection_response peer now =
        "HTTP/1.1 200 OK\r\nContent-Type: text/html\r\n\r\n<html><body>".data
        ++ ("<h1>Port ".data ++ natChars peer.port ++ "</h1>".data) ++
        ("<p>Active since: ".data ++ now ++ "</p></body></html>".data) := by
      simp [handle_connection_response, List.append_assoc]
    rw [hshape]
    exact containsSeg_of_middle _ _ _

/-! ### C8: error-registry id stability and hash collisions -/

theorem wrap64_lt (n : Nat) : wrap64 n < 2 ^ 64 :=
  Nat.mod_lt n (by norm_num)

theorem sipHash13Str_lt (s : List Char) : sipHash13Str s < 2 ^ 64 :=
  wrap64_lt _

theorem register_error_fst (r : ErrorRegistry) (t : List Char) :
    (r.register_error t).fst = sipHash13Str t := rfl

/-- There exist two distinct error texts whose `DefaultHasher` hashes
collide: the hash takes infinitely many texts into the finite set of
64-bit values. -/
theorem sipHash13Str_collision :
    ∃ s1 s2 : List Char, s1 ≠ s2 ∧ sipHash13Str s1 = sipHash13Str s2 := by
  have hfin : ∃ m n : Nat, m ≠ n ∧
      (fun k => (⟨sipHash13Str (List.replicate k 'a'),
        sipHash13Str_lt _⟩ : Fin (2 ^ 64))) m =
      (fun k => (⟨sipHash13Str (List.replicate k 'a'),
        sipHash13Str_lt _⟩ : Fin (2 ^ 64))) n :=
    Finite.exists_ne_map_eq_of_infinite _
  obtain ⟨m, n, hmn, heq⟩ := hfin
  refine ⟨List.replicate m 'a', List.replicate n 'a', ?_, ?_⟩
  · intro hlist
    exact hmn (by simpa using congrArg List.length hlist)
  · exact congrArg Fin.val heq

/-- C8 counterexample: it is not the case that two `register_error` calls
with different texts always return different ids — the id is the 64-bit
`DefaultHasher` hash of the text, and distinct texts with colliding hashes
(which exist by pigeonhole) receive the same id. -/
theorem C8_counterexample :
    ¬ (∀ t1 t2 : List Char, t1 ≠ t2 →
        (ErrorRegistry.new.register_error t1).fst ≠
          ((ErrorRegistry.new.register_error t1).snd.register_error t2).fst) := by
  intro h
  obtain ⟨s1, s2, hne, hcoll⟩ := sipHash13Str_collision
  exact h s1 s2 hne (by rw [register_error_fst, register_error_fst, hcoll])

/-- C8 amended: within one run, the id returned by `register_error` is a
deterministic function (the 64-bit `DefaultHasher` hash) of the error text
alone: textually identical inputs always receive equal ids, and two ids
are equal exactly when the texts' hashes are equal — so distinct texts
receive distinct ids unless their 64-bit hashes collide. -/
theorem C8_amended :
    (∀ (r1 r2 : ErrorRegistry) (t1 t2 : List Char), t1 = t2 →
      (r1.register_error t1).fst = (r2.register_error t2).fst) ∧
    (∀ (r1 r2 : ErrorRegistry) (t1 t2 : List Char),
      (r1.register_error t1).fst = (r2.register_error t2).fst ↔
        sipHash13Str t1 = sipHash13Str t2) := by
  refine ⟨fun r1 r2 t1 t2 ht => ?_, fun r1 r2 t1 t2 => Iff.rfl⟩
  rw [register_error_fst, register_error_fst, ht]

/-- Witness for C8 amended: two registrations of the same text on
different registry states return the same id. -/
theorem C8_amended_witness :
    (ErrorRegistry.new.register_error "Connection timeout".data).fst =
      ((ErrorRegistry.new.register_error "x".data).snd.register_error
        "Connection timeout".data).fst :=
  C8_amended.1 ErrorRegistry.new
    (ErrorRegistry.new.register_error "x".data).snd
    "Connection timeout".data "Connection timeout".data rfl

/-! ### C6: CIDR expansion size -/

theorem isDigit_ne_dash {c : Char} (h : isDigitChar c = true) : c ≠ '-' := by
  rintro rfl; exact absurd h (by decide)

theorem isDigit_ne_slash {c : Char} (h : isDigitChar c = true) : c ≠ '/' := by
  rintro rfl; exact absurd h (by decide)

theorem isDigit_ne_dot {c : Char} (h : isDigitChar c = true) : c ≠ '.' := by
  rintro rfl; exact absurd h (by decide)

theorem isDigit_ne_X {c : Char} (h : isDigitChar c = true) : c ≠ 'X' := by
  rintro rfl; exact absurd h (by decide)

/-- C6: for every CIDR input `A.B.C.D/N` with `N ∈ [0,32]` — an address
part accepted by the IPv4 parser, a slash, and a digit prefix part parsed
as at most 32 — IP expansion succeeds and produces exactly `2^(32−N)`
addresses, including the network and broadcast addresses of the block. -/
theorem C6_cidr_expansion (input a p : List Char) (ip pfxLen : Nat)
    (hsplit : upperList input = a ++ '/' :: p)
    (ha : ∀ c ∈ a, isDigitChar c = true ∨ c = '.')
    (hp : ∀ c ∈ p, isDigitChar c = true)
    (hip : rustParseIpv4 a = some ip)
    (hpfx : rustParseU8 p = some pfxLen)
    (hle : pfxLen ≤ 32) :
    parse_ip_input input = Except.ok (cidrAddresses ip pfxLen) ∧
    (cidrAddresses ip pfxLen).length = 2 ^ (32 - pfxLen) ∧
    networkOf ip pfxLen ∈ cidrAddresses ip pfxLen ∧
    broadcastOf ip pfxLen ∈ cidrAddresses ip pfxLen := by
  have hnd : '-' ∉ a ++ '/' :: p := by
    intro hm
    simp only [List.mem_append, List.mem_cons] at hm
    rcases hm with h | h | h
    · rcases ha _ h with hd | hd
      · exact isDigit_ne_dash hd rfl
      · exact absurd hd (by decide)
    · exact absurd h (by decide)
    · exact isDigit_ne_dash (hp _ h) rfl
  have hsa : '/' ∉ a := by
    intro hm
    rcases ha _ hm with hd | hd
    · exact isDigit_ne_slash hd rfl
    · exact absurd hd (by decide)
  have hsp : '/' ∉ p := fun hm => isDigit_ne_slash (hp _ hm) rfl
  have hstep : parse_ip_input input = Except.ok (cidrAddresses ip pfxLen) := by
    unfold parse_ip_input
    rw [hsplit]
    rw [if_neg (by simp [hnd] : ¬((a ++ '/' :: p).contains '-' = true))]
    rw [if_pos (by simp : ((a ++ '/' :: p).contains '/' = true))]
    rw [splitChar_append_sep p hsa, splitChar_of_not_mem hsp]
    simp [hip, hpfx, hle]
  refine ⟨hstep, by simp [cidrAddresses], ?_, ?_⟩
  · have h0 : 0 < 2 ^ (32 - pfxLen) := Nat.pos_pow_of_pos _ (by decide)
    exact List.mem_map.mpr ⟨0, List.mem_range.mpr h0, by
      simp [networkOf]⟩
  · have h1 : 2 ^ (32 - pfxLen) - 1 < 2 ^ (32 - pfxLen) := by
      have := Nat.pos_pow_of_pos (32 - pfxLen) (show 0 < 2 by decide)
      omega
    exact List.mem_map.mpr ⟨2 ^ (32 - pfxLen) - 1, List.mem_range.mpr h1, by
      simp [broadcastOf, networkOf]⟩

/-- Witness for C6 at the concrete CIDR input `10.0.0.0/30`: four
addresses, containing the network `10.0.0.0` and broadcast `10.0.0.3`. -/
theorem C6_cidr_expansion_witness :
    parse_ip_input "10.0.0.0/30".data =
      Except.ok (cidrAddresses (u32OfOctets 10 0 0 0) 30) ∧
    (cidrAddresses (u32OfOctets 10 0 0 0) 30).length = 2 ^ (32 - 30) ∧
    networkOf (u32OfOctets 10 0 0 0) 30 ∈
      cidrAddresses (u32OfOctets 10 0 0 0) 30 ∧
    broadcastOf (u32OfOctets 10 0 0 0) 30 ∈
      cidrAddresses (u32OfOctets 10 0 0 0) 30 :=
  C6_cidr_expansion "10.0.0.0/30".data "10.0.0.0".data "30".data
    (u32OfOctets 10 0 0 0) 30 (by decide) (by decide) (by decide)
    (by decide) (by decide) (by decide)

/-! ### C7: decimal-rendering round trip -/

theorem natChars_ne_nil (n : Nat) : natChars n ≠ [] := by
  rw [natChars_unfold]
  split <;> simp

theorem natChars_length_le (k : Nat) :
    ∀ n, n < 10 ^ (k + 1) → (natChars n).length ≤ k + 1 := by
  induction k with
  | zero =>
    intro n h
    rw [natChars_unfold, if_pos (by simpa using h)]
    simp
  | succ k ih =>
    intro n h
    by_cases hn : n < 10
    · rw [natChars_unfold, if_pos hn]
      simp
    · rw [natChars_unfold, if_neg hn]
      have hdiv : n / 10 < 10 ^ (k + 1) := by
        rw [Nat.div_lt_iff_lt_mul (by decide)]
        calc n < 10 ^ (k + 1 + 1) := h
        _ = 10 ^ (k + 1) * 10 := by ring
      have := ih (n / 10) hdiv
      simp only [List.length_append, List.length_cons, List.length_nil]
      omega

theorem digitVal_digitChar {m : Nat} (h : m < 10) :
    digitVal (digitChar m) = m := by
  interval_cases m <;> decide

theorem digitsVal_append_singleton (l : List Char) (c : Char) :
    digitsVal (l ++ [c]) = digitsVal l * 10 + digitVal c := by
  simp [digitsVal, List.foldl_append]

theorem digitsVal_natChars (n : Nat) : digitsVal (natChars n) = n := by
  induction n using Nat.strong_induction_on with
  | _ n ih =>
    by_cases hn : n < 10
    · rw [natChars_unfold, if_pos hn]
      simp [digitsVal, digitVal_digitChar hn]
    · rw [natChars_unfold, if_neg hn, digitsVal_append_singleton,
        ih (n / 10) (Nat.div_lt_self (by omega) (by decide)),
        digitVal_digitChar (Nat.mod_lt n (by decide))]
      omega

theorem natChars_head_ne_zero :
    ∀ n, 1 ≤ n → ∀ c cs, natChars n = c :: cs → c ≠ '0' := by
  intro n
  induction n using Nat.strong_induction_on with
  | _ n ih =>
    intro hn c cs heq
    by_cases h10 : n < 10
    · rw [natChars_unfold, if_pos h10] at heq
      have hc : c = digitChar n := by
        injection heq with h1 _
        exact h1.symm
      subst hc
      interval_cases n <;> decide
    · rw [natChars_unfold, if_neg h10] at heq
      cases hh : natChars (n / 10) with
      | nil => exact absurd hh (natChars_ne_nil _)
      | cons c' cs' =>
        rw [hh, List.cons_append] at heq
        have hc : c = c' := by
          injection heq with h1 _
          exact h1.symm
        rw [hc]
        exact ih (n / 10) (Nat.div_lt_self (by omega) (by decide))
          (by omega) c' cs' hh

theorem natChars_single_of_lt {n : Nat} (h : n < 10) :
    natChars n = [digitChar n] := by
  rw [natChars_unfold, if_pos h]

theorem parseOctetStrict_natChars (x : Nat) (hx : x ≤ 255) :
    parseOctetStrict (natChars x) = some x := by
  cases hh : natChars x with
  | nil => exact absurd hh (natChars_ne_nil x)
  | cons c cs =>
    have hall : (c :: cs).all isDigitChar = true := by
      rw [← hh, List.all_eq_true]
      exact natChars_digits x
    have hlen : (c :: cs).length ≤ 3 := by
      rw [← hh]
      exact natChars_length_le 2 x (by omega)
    have hval : digitsVal (c :: cs) = x := by
      rw [← hh]
      exact digitsVal_natChars x
    have hlead : (cs.isEmpty || decide (c ≠ '0')) = true := by
      by_cases h10 : x < 10
      · rw [natChars_single_of_lt h10] at hh
        have hcs : cs = [] := by injection hh with _ h2; exact h2.symm
        simp [hcs]
      · have hc0 : c ≠ '0' :=
          natChars_head_ne_zero x (by omega) c cs hh
        simp [hc0]
    simp only [parseOctetStrict]
    rw [if_pos]
    · rw [hval]
    · rw [Bool.and_eq_true, Bool.and_eq_true, Bool.and_eq_true]
      exact ⟨⟨⟨hall, decide_eq_true hlen⟩, hlead⟩,
        decide_eq_true (hval ▸ hx)⟩

theorem dot_not_mem_natChars (n : Nat) : '.' ∉ natChars n := fun hm =>
  isDigit_ne_dot (natChars_digits n _ hm) rfl

theorem rustParseIpv4_render (a b c d : Nat) (ha : a ≤ 255) (hb : b ≤ 255)
    (hc : c ≤ 255) (hd : d ≤ 255) :
    rustParseIpv4 (natChars a ++ '.' :: natChars b ++ '.' :: natChars c ++
      '.' :: natChars d) = some (u32OfOctets a b c d) := by
  have hsh : natChars a ++ '.' :: natChars b ++ '.' :: natChars c ++
      '.' :: natChars d =
      natChars a ++ '.' :: (natChars b ++ '.' :: (natChars c ++
        '.' :: natChars d)) := by
    simp [List.append_assoc]
  unfold rustParseIpv4
  rw [hsh, splitChar_append_sep _ (dot_not_mem_natChars a),
    splitChar_append_sep _ (dot_not_mem_natChars b),
    splitChar_append_sep _ (dot_not_mem_natChars c),
    splitChar_of_not_mem (dot_not_mem_natChars d)]
  simp [parseOctetStrict_natChars a ha, parseOctetStrict_natChars b hb,
    parseOctetStrict_natChars c hc, parseOctetStrict_natChars d hd]

theorem octet0_u32 (a b c d : Nat) (ha : a ≤ 255) (hb : b ≤ 255)
    (hc : c ≤ 255) (hd : d ≤ 255) : octet0 (u32OfOctets a b c d) = a := by
  unfold octet0 u32OfOctets
  omega

theorem octet1_u32 (a b c d : Nat) (ha : a ≤ 255) (hb : b ≤ 255)
    (hc : c ≤ 255) (hd : d ≤ 255) : octet1 (u32OfOctets a b c d) = b := by
  unfold octet1 u32OfOctets
  omega

theorem octet2_u32 (a b c d : Nat) (ha : a ≤ 255) (hb : b ≤ 255)
    (hc : c ≤ 255) (hd : d ≤ 255) : octet2 (u32OfOctets a b c d) = c := by
  unfold octet2 u32OfOctets
  omega

theorem octet3_u32 (a b c d : Nat) (ha : a ≤ 255) (hb : b ≤ 255)
    (hc : c ≤ 255) (hd : d ≤ 255) : octet3 (u32OfOctets a b c d) = d := by
  unfold octet3 u32OfOctets
  omega

theorem ipChars_u32 (a b c d : Nat) (ha : a ≤ 255) (hb : b ≤ 255)
    (hc : c ≤ 255) (hd : d ≤ 255) :
    ipChars (u32OfOctets a b c d) =
      natChars a ++ '.' :: natChars b ++ '.' :: natChars c ++
        '.' :: natChars d := by
  unfold ipChars
  rw [octet0_u32 a b c d ha hb hc hd, octet1_u32 a b c d ha hb hc hd,
    octet2_u32 a b c d ha hb hc hd, octet3_u32 a b c d ha hb hc hd]

theorem endsWith_dot_zero (P : List Char) (d : Nat) :
    endsWithSeg (P ++ '.' :: natChars d) ['.', '0'] = (d == 0) := by
  by_cases h10 : d < 10
  · rw [natChars_single_of_lt h10]
    unfold endsWithSeg
    have hrev : (P ++ '.' :: [digitChar d]).reverse =
        digitChar d :: '.' :: P.reverse := by
      simp
    rw [hrev, show (['.', '0'] : List Char).reverse = ['0', '.'] from rfl]
    simp only [startsWithSeg, Bool.and_true]
    interval_cases d <;> decide
  · rw [natChars_unfold, if_neg h10]
    have hne : (d == 0) = false := by
      simp
      omega
    rw [hne]
    unfold endsWithSeg
    cases hh : (natChars (d / 10)).reverse with
    | nil =>
      exact absurd (by simpa using hh) (natChars_ne_nil (d / 10))
    | cons c' cs' =>
      have hdig : isDigitChar c' = true := by
        have hm : c' ∈ natChars (d / 10) := by
          have hm' : c' ∈ (natChars (d / 10)).reverse := by
            rw [hh]
            exact List.mem_cons_self _ _
          simpa using hm'
        exact natChars_digits _ _ hm
      have hrev : (P ++ '.' :: (natChars (d / 10) ++
          [digitChar (d % 10)])).reverse =
          digitChar (d % 10) :: c' :: (cs' ++ '.' :: P.reverse) := by
        simp [hh, List.append_assoc]
      rw [show (['.', '0'] : List Char).reverse = ['0', '.'] from rfl, hrev]
      simp [startsWithSeg, Ne.symm (isDigit_ne_dot hdig)]

theorem rustParseU8_le {s : List Char} {v : Nat}
    (h : rustParseU8 s = some v) : v ≤ 255 := by
  unfold rustParseU8 rustParseUInt at h
  dsimp only at h
  split_ifs at h with h1 h2
  injection h with hv
  omega

theorem wildcard_inner_eq (input : List Char) (a b c : Nat) (r3 : List Nat)
    (ha : a ≤ 255) (hb : b ≤ 255) (hc : c ≤ 255)
    (hr3 : ∀ d ∈ r3, d ≤ 255) :
    (r3.filterMap fun d =>
      match rustParseIpv4 (natChars a ++ '.' :: natChars b ++
          '.' :: natChars c ++ '.' :: natChars d) with
      | some ip =>
        if !endsWithSeg (ipChars ip) ['.', '0'] ||
            containsSeg input (ipChars ip) then some ip else none
      | none => none) =
    ((r3.map fun d => u32OfOctets a b c d).filter
      (fun ip => octet3 ip ≠ 0 || containsSeg input (ipChars ip))) := by
  induction r3 with
  | nil => rfl
  | cons d rest ih =>
    have hd : d ≤ 255 := hr3 d (List.mem_cons_self _ _)
    have hrest : ∀ x ∈ rest, x ≤ 255 :=
      fun x hx => hr3 x (List.mem_cons_of_mem _ hx)
    have hend : endsWithSeg (ipChars (u32OfOctets a b c d)) ['.', '0'] =
        (d == 0) := by
      rw [ipChars_u32 a b c d ha hb hc hd,
        show natChars a ++ '.' :: natChars b ++ '.' :: natChars c ++
            '.' :: natChars d =
          (natChars a ++ '.' :: natChars b ++ '.' :: natChars c) ++
            '.' :: natChars d by simp [List.append_assoc]]
      exact endsWith_dot_zero _ d
    have ho3 : octet3 (u32OfOctets a b c d) = d :=
      octet3_u32 a b c d ha hb hc hd
    simp only [List.filterMap_cons, List.map_cons, List.filter_cons,
      rustParseIpv4_render a b c d ha hb hc hd, hend, ho3, ih hrest]
    by_cases h0 : d = 0
    · subst h0
      by_cases hcs :
          containsSeg input (ipChars (u32OfOctets a b c 0)) = true <;>
        simp [hcs]
    · simp [h0]

theorem flatMap_congr_mem {α β : Type} {l : List α} {f g : α → List β}
    (h : ∀ x ∈ l, f x = g x) : l.flatMap f = l.flatMap g := by
  induction l with
  | nil => rfl
  | cons x xs ih =>
    simp only [List.flatMap_cons, h x (List.mem_cons_self _ _),
      ih fun y hy => h y (List.mem_cons_of_mem _ hy)]

theorem filter_flatMap {α β : Type} (l : List α) (f : α → List β)
    (p : β → Bool) :
    (l.flatMap f).filter p = l.flatMap fun x => (f x).filter p := by
  induction l with
  | nil => rfl
  | cons x xs ih => simp [List.flatMap_cons, List.filter_append, ih]

theorem wildcardExpand_eq_spec (input : List Char) (r0 r1 r2 r3 : List Nat)
    (h0 : ∀ x ∈ r0, x ≤ 255) (h1 : ∀ x ∈ r1, x ≤ 255)
    (h2 : ∀ x ∈ r2, x ≤ 255) (h3 : ∀ x ∈ r3, x ≤ 255) :
    wildcardExpand input r0 r1 r2 r3 =
      wildcardSpecExpansion input r0 r1 r2 r3 := by
  simp only [wildcardExpand, wildcardSpecExpansion]
  rw [filter_flatMap]
  refine flatMap_congr_mem fun a hax => ?_
  rw [filter_flatMap]
  refine flatMap_congr_mem fun b hbx => ?_
  rw [filter_flatMap]
  refine flatMap_congr_mem fun c hcx => ?_
  exact wildcard_inner_eq input a b c r3 (h0 a hax) (h1 b hbx) (h2 c hcx) h3

theorem wildcardRange_ok {o : List Char} {r : List Nat}
    (h : (o = ['X'] ∧ r = List.range 256) ∨
      (∃ v, rustParseU8 o = some v ∧ r = [v])) :
    wildcardRange o = Except.ok r := by
  rcases h with ⟨ho, hr⟩ | ⟨v, hv, hr⟩
  · subst ho
    subst hr
    rfl
  · have hne : o ≠ ['X'] := by
      rintro rfl
      rw [show rustParseU8 ['X'] = none by decide] at hv
      exact Option.noConfusion hv
    subst hr
    unfold wildcardRange
    rw [if_neg hne, hv]

theorem wildcardRange_bounds {o : List Char} {r : List Nat}
    (h : (o = ['X'] ∧ r = List.range 256) ∨
      (∃ v, rustParseU8 o = some v ∧ r = [v])) :
    ∀ x ∈ r, x ≤ 255 := by
  rcases h with ⟨_, hr⟩ | ⟨v, hv, hr⟩
  · subst hr
    intro x hx
    have := List.mem_range.mp hx
    omega
  · subst hr
    intro x hx
    rw [List.mem_singleton.mp hx]
    exact rustParseU8_le hv

theorem wcChar_ne {c : Char}
    (h : isDigitChar c = true ∨ c = 'X' ∨ c = '+') :
    c ≠ '-' ∧ c ≠ '/' ∧ c ≠ '.' := by
  rcases h with h | rfl | rfl
  · exact ⟨isDigit_ne_dash h, isDigit_ne_slash h, isDigit_ne_dot h⟩
  · exact ⟨by decide, by decide, by decide⟩
  · exact ⟨by decide, by decide, by decide⟩

/-- C7: for every wildcard IP spec — four dot-separated groups, each either
the (case-normalized) wildcard `X` or a fixed numeric octet, at least one
group being `X` — expansion is the Cartesian product of the per-octet
candidate lists ([0,255] for each wildcard octet, the fixed value for the
others) in ascending octet order, except that every address whose last
octet is 0 is omitted unless that exact address appears literally in the
input string; in particular `192.168.1.X` expands to the 255 addresses
`192.168.1.1` through `192.168.1.255` in order. -/
theorem C7_wildcard_expansion :
    (∀ (input o0 o1 o2 o3 : List Char) (r0 r1 r2 r3 : List Nat),
      upperList input = o0 ++ '.' :: (o1 ++ '.' :: (o2 ++ '.' :: o3)) →
      (∀ c ∈ o0, isDigitChar c = true ∨ c = 'X' ∨ c = '+') →
      (∀ c ∈ o1, isDigitChar c = true ∨ c = 'X' ∨ c = '+') →
      (∀ c ∈ o2, isDigitChar c = true ∨ c = 'X' ∨ c = '+') →
      (∀ c ∈ o3, isDigitChar c = true ∨ c = 'X' ∨ c = '+') →
      (o0 = ['X'] ∨ o1 = ['X'] ∨ o2 = ['X'] ∨ o3 = ['X']) →
      ((o0 = ['X'] ∧ r0 = List.range 256) ∨
        (∃ v, rustParseU8 o0 = some v ∧ r0 = [v])) →
      ((o1 = ['X'] ∧ r1 = List.range 256) ∨
        (∃ v, rustParseU8 o1 = some v ∧ r1 = [v])) →
      ((o2 = ['X'] ∧ r2 = List.range 256) ∨
        (∃ v, rustParseU8 o2 = some v ∧ r2 = [v])) →
      ((o3 = ['X'] ∧ r3 = List.range 256) ∨
        (∃ v, rustParseU8 o3 = some v ∧ r3 = [v])) →
      parse_ip_input input =
        Except.ok (wildcardSpecExpansion input r0 r1 r2 r3)) ∧
    parse_ip_input "192.168.1.X".data =
      Except.ok ((List.range 255).map fun i => u32OfOctets 192 168 1 (i + 1)) := by
  constructor
  · intro input o0 o1 o2 o3 r0 r1 r2 r3 hsplit h0 h1 h2 h3 hxs hw0 hw1 hw2 hw3
    have k0 : ∀ c ∈ o0, c ≠ '-' ∧ c ≠ '/' ∧ c ≠ '.' :=
      fun c hc => wcChar_ne (h0 c hc)
    have k1 : ∀ c ∈ o1, c ≠ '-' ∧ c ≠ '/' ∧ c ≠ '.' :=
      fun c hc => wcChar_ne (h1 c hc)
    have k2 : ∀ c ∈ o2, c ≠ '-' ∧ c ≠ '/' ∧ c ≠ '.' :=
      fun c hc => wcChar_ne (h2 c hc)
    have k3 : ∀ c ∈ o3, c ≠ '-' ∧ c ≠ '/' ∧ c ≠ '.' :=
      fun c hc => wcChar_ne (h3 c hc)
    have hnd : '-' ∉ (o0 ++ '.' :: (o1 ++ '.' :: (o2 ++ '.' :: o3))) := by
      intro hm
      simp only [List.mem_append, List.mem_cons] at hm
      rcases hm with h | h | h | h | h | h | h <;>
        first
          | exact (k0 _ h).1 rfl
          | exact (k1 _ h).1 rfl
          | exact (k2 _ h).1 rfl
          | exact (k3 _ h).1 rfl
          | exact absurd h (by decide)
    have hns : '/' ∉ (o0 ++ '.' :: (o1 ++ '.' :: (o2 ++ '.' :: o3))) := by
      intro hm
      simp only [List.mem_append, List.mem_cons] at hm
      rcases hm with h | h | h | h | h | h | h <;>
        first
          | exact (k0 _ h).2.1 rfl
          | exact (k1 _ h).2.1 rfl
          | exact (k2 _ h).2.1 rfl
          | exact (k3 _ h).2.1 rfl
          | exact absurd h (by decide)
    have hX : 'X' ∈ (o0 ++ '.' :: (o1 ++ '.' :: (o2 ++ '.' :: o3))) := by
      rcases hxs with h | h | h | h <;> subst h <;> simp
    have hd0 : '.' ∉ o0 := fun hm => (k0 _ hm).2.2 rfl
    have hd1 : '.' ∉ o1 := fun hm => (k1 _ hm).2.2 rfl
    have hd2 : '.' ∉ o2 := fun hm => (k2 _ hm).2.2 rfl
    have hd3 : '.' ∉ o3 := fun hm => (k3 _ hm).2.2 rfl
    unfold parse_ip_input
    rw [hsplit]
    rw [if_neg (by simp [hnd])]
    rw [if_neg (by simp [hns])]
    rw [if_pos (by simp [hX])]
    rw [splitChar_append_sep _ hd0, splitChar_append_sep _ hd1,
      splitChar_append_sep _ hd2, splitChar_of_not_mem hd3]
    simp only [wildcardRange_ok hw0, wildcardRange_ok hw1,
      wildcardRange_ok hw2, wildcardRange_ok hw3]
    exact congrArg Except.ok
      (wildcardExpand_eq_spec input r0 r1 r2 r3
        (wildcardRange_bounds hw0) (wildcardRange_bounds hw1)
        (wildcardRange_bounds hw2) (wildcardRange_bounds hw3))
  · rfl

/-- Witness for C7 at the concrete wildcard spec `192.168.1.X`. -/
theorem C7_wildcard_expansion_witness :
    parse_ip_input "192.168.1.X".data =
      Except.ok (wildcardSpecExpansion "192.168.1.X".data [192] [168] [1]
        (List.range 256)) :=
  C7_wildcard_expansion.1 "192.168.1.X".data "192".data "168".data "1".data
    ['X'] [192] [168] [1] (List.range 256) (by decide)
    (by decide) (by decide) (by decide) (by decide)
    (Or.inr (Or.inr (Or.inr rfl)))
    (Or.inr ⟨192, by decide, rfl⟩) (Or.inr ⟨168, by decide, rfl⟩)
    (Or.inr ⟨1, by decide, rfl⟩) (Or.inl ⟨rfl, rfl⟩)

end IPCow
